import Mathlib

/-!
Verification of the cubemap utility routines of `tools/cmgen/src/CubemapUtils.cpp`.

The file gives a shallow embedding of the routines of that translation unit:
pure per-texel computations become Lean functions over `ℚ` (the `float` and
`double` arithmetic of the clamp, grid and copy routines is exact on the
inputs considered, so `ℚ` is a faithful carrier there), the byte-level
`copyImage` becomes a function on an explicit byte-store model, and the
transcendental `solidAngle` is embedded over `ℝ`.
-/

namespace CubemapUtils

/-- Enumeration of the six cubemap faces, in the order of the `Cubemap::Face`
enumeration (`NX = 0, PX, NY, PY, NZ, PZ`), which is also the index order of
the `colors` array in `generateUVGrid`. -/
inductive Face where
  | NX | PX | NY | PY | NZ | PZ

/-- Texel type: three `float` channels (source type `math::float3` with
fields `x`, `y`, `z`), modelled over `ℚ`. -/
structure float3 where
  x : ℚ
  y : ℚ
  z : ℚ

/-- Componentwise scalar multiplication of a `float3` by a scalar, as in
`colors[(int)f] * uvGridHDRIntensity`. -/
def float3.smul (s : ℚ) (c : float3) : float3 :=
  ⟨s * c.x, s * c.y, s * c.z⟩

/-- Zero texel, the `0` of `grid ? colors[(int)f] * uvGridHDRIntensity : 0`. -/
def float3.zero : float3 := ⟨0, 0, 0⟩

/-- Action of `CubemapUtils::clamp` on one texel: each channel is replaced by
`std::min(c, 256.0f)`. -/
def clampTexel (c : float3) : float3 :=
  ⟨min c.x 256, min c.y 256, min c.z 256⟩

/-- Image transform `CubemapUtils::clamp`: every texel `(x, y)` with
`x < width` and `y < height` is clamped channelwise; an image is modelled by
its texel map `ℕ → ℕ → float3` together with its width and height. -/
def clamp (width height : ℕ) (src : ℕ → ℕ → float3) : ℕ → ℕ → float3 :=
  fun x y => if x < width ∧ y < height then clampTexel (src x y) else src x y

/-- Concrete three-texel test image: R channel values 300, 1, 1000 across the
row, G and B channels 2 and 3 everywhere. -/
def clampTestImage : ℕ → ℕ → float3 :=
  fun x _ => if x = 0 then ⟨300, 2, 3⟩ else if x = 1 then ⟨1, 2, 3⟩ else ⟨1000, 2, 3⟩

/-- Per-face colors of `generateUVGrid`, in `Cubemap::Face` order:
red, white, green, blue, magenta, yellow. -/
def uvGridColor : Face → float3
  | Face.NX => ⟨1, 0, 0⟩
  | Face.PX => ⟨1, 1, 1⟩
  | Face.NY => ⟨0, 1, 0⟩
  | Face.PY => ⟨0, 0, 1⟩
  | Face.NZ => ⟨1, 0, 1⟩
  | Face.PZ => ⟨1, 1, 0⟩

/-- HDR intensity multiplier `uvGridHDRIntensity = 5.0f`. -/
def uvGridHDRIntensity : ℚ := 5

/-- Texel written by `CubemapUtils::generateUVGrid` at `(x, y)` of face `f`
for a cubemap of dimension `dim`: `gridSize = dim / gridFrequency` (integer
division) and the checkerboard test is `((x / gridSize) ^ (y / gridSize)) & 1`. -/
def generateUVGrid (dim gridFrequency : ℕ) (f : Face) (x y : ℕ) : float3 :=
  let gridSize := dim / gridFrequency
  if ((x / gridSize) ^^^ (y / gridSize)) % 2 = 1 then
    float3.smul uvGridHDRIntensity (uvGridColor f)
  else float3.zero

/-- Cubemap geometry tag, as set by `setAllFacesFromCross`. -/
inductive Geometry where
  | HORIZONTAL_CROSS | VERTICAL_CROSS

/-- Top-left corner `(x, y)` (in texels) of the `dim × dim` sub-rectangle
that `CubemapUtils::setFaceFromCross` extracts for `face` from a cross image
of size `imageWidth × imageHeight`; the `NZ` case tests
`image.getHeight() > image.getWidth()`. -/
def setFaceFromCrossOffset (dim imageWidth imageHeight : ℕ) : Face → ℕ × ℕ
  | Face.NX => (0, dim)
  | Face.PX => (2 * dim, dim)
  | Face.NY => (dim, 2 * dim)
  | Face.PY => (dim, 0)
  | Face.NZ =>
      if imageHeight > imageWidth then (dim, 3 * dim) else (3 * dim, dim)
  | Face.PZ => (dim, dim)

/-- Face image produced by `setFaceFromCross`, as a texel map: the
`Image::subset` view makes texel `(i, j)` of the face read the cross-image
texel at the face offset plus `(i, j)` (Modelled from the spec: the body of
`Image::subset` is outside this translation unit; section 4.1 describes it as
a view of a rectangular region of the parent buffer). -/
def setFaceFromCross (dim imageWidth imageHeight : ℕ)
    (image : ℕ → ℕ → float3) (face : Face) : ℕ → ℕ → float3 :=
  fun i j =>
    image ((setFaceFromCrossOffset dim imageWidth imageHeight face).1 + i)
      ((setFaceFromCrossOffset dim imageWidth imageHeight face).2 + j)

/-- Geometry chosen by `CubemapUtils::setAllFacesFromCross`: a vertical cross
exactly when the image is strictly taller than wide. -/
def setAllFacesFromCrossGeometry (imageWidth imageHeight : ℕ) : Geometry :=
  if imageHeight > imageWidth then Geometry.VERTICAL_CROSS
  else Geometry.HORIZONTAL_CROSS

/-- Image buffer as seen by `CubemapUtils::copyImage`: width and height in
texels, `bytesPerRow` (row stride), texel size in bytes, and the underlying
byte store as a map from byte offset to byte value (Modelled from the spec:
the `Image` accessors are outside this translation unit; sections 3 and 4.1
give stride-based addressing, with `getPixelRef(x, y)` addressing the texel
at byte offset `y * bytesPerRow + x * bytesPerTexel`). -/
structure Image where
  width : ℕ
  height : ℕ
  bytesPerRow : ℕ
  bytesPerTexel : ℕ
  data : ℕ → ℕ

/-- Byte offset of `getPixelRef(x, y)`. -/
def Image.pixelOffset (img : Image) (x y : ℕ) : ℕ :=
  y * img.bytesPerRow + x * img.bytesPerTexel

/-- A `memcpy` of `len` bytes from offset `srcOff` of the byte store `src`
to offset `dstOff` of the byte store `dst`. -/
def memcpyBytes (dst : ℕ → ℕ) (dstOff : ℕ) (src : ℕ → ℕ) (srcOff len : ℕ) :
    ℕ → ℕ :=
  fun i => if dstOff ≤ i ∧ i < dstOff + len then src (srcOff + (i - dstOff)) else dst i

/-- First `n` row copies of the loop of `CubemapUtils::copyImage`: row `y`
copies `src.getBytesPerRow()` bytes from `src.getPixelRef(0, y)` to
`dst.getPixelRef(0, y)`, for `y` increasing. -/
def copyImageRows (dst src : Image) : ℕ → ℕ → ℕ
  | 0 => dst.data
  | n + 1 =>
      memcpyBytes (copyImageRows dst src n) (dst.pixelOffset 0 n)
        src.data (src.pixelOffset 0 n) src.bytesPerRow

/-- Function `CubemapUtils::copyImage(dst, src)`: performs the row copies for
all `src.getHeight()` rows (the assert checks `dst.getWidth() >= src.getWidth()`
and `dst.getHeight() >= src.getHeight()`). -/
def copyImage (dst src : Image) : Image :=
  { dst with data := copyImageRows dst src src.height }

/-- Concrete source image for `copyImage`: one 1-byte texel per row, one row,
with a padded stride of 2 bytes; byte 0 holds 7, the padding byte holds 9. -/
def copySrcPadded : Image :=
  ⟨1, 1, 2, 1, fun i => if i = 0 then 7 else if i = 1 then 9 else 0⟩

/-- Concrete destination image for `copyImage`: two 1-byte texels per row,
one row, stride 2, all bytes 0. -/
def copyDstPadded : Image :=
  ⟨2, 1, 2, 1, fun _ => 0⟩

/-- Concrete unpadded source image for `copyImage`: one 1-byte texel, stride
1, byte value 7. -/
def copySrcTight : Image :=
  ⟨1, 1, 1, 1, fun i => if i = 0 then 7 else 0⟩

/-- Concrete destination image for the unpadded copy: 2 × 2 texels of 1 byte,
stride 2, all bytes 3. -/
def copyDstTight : Image :=
  ⟨2, 2, 2, 1, fun _ => 3⟩

/-- Supersample count computed by `equirectangularToCubemap` for one
destination texel, as a function of the four projected corner positions
`pos0 .. pos3` (the equirectangular projections of the texel corners):
`dx = max(1.0, maxx - minx)`, `dy = max(1.0, maxy - miny)`, and
`numSamples = size_t(dx * dy)`, a truncation of a value at least 1, hence
the floor. -/
def numSamples (pos0 pos1 pos2 pos3 : ℚ × ℚ) : ℕ :=
  let minx := min pos0.1 (min pos1.1 (min pos2.1 pos3.1))
  let maxx := max pos0.1 (max pos1.1 (max pos2.1 pos3.1))
  let miny := min pos0.2 (min pos1.2 (min pos2.2 pos3.2))
  let maxy := max pos0.2 (max pos1.2 (max pos2.2 pos3.2))
  let dx := max 1 (maxx - minx)
  let dy := max 1 (maxy - miny)
  (⌊dx * dy⌋).toNat

/-- Sample-count formula as the specification words it:
`max(1, ceil(boundingBoxWidth) * ceil(boundingBoxHeight))` over the bounding
box of the four projected corners. -/
def specNumSamples (pos0 pos1 pos2 pos3 : ℚ × ℚ) : ℕ :=
  let minx := min pos0.1 (min pos1.1 (min pos2.1 pos3.1))
  let maxx := max pos0.1 (max pos1.1 (max pos2.1 pos3.1))
  let miny := min pos0.2 (min pos1.2 (min pos2.2 pos3.2))
  let maxy := max pos0.2 (max pos1.2 (max pos2.2 pos3.2))
  (max 1 (⌈maxx - minx⌉ * ⌈maxy - miny⌉)).toNat

noncomputable section

/-- C library function `atan2(y, x)`, over the reals. -/
def atan2 (y x : ℝ) : ℝ :=
  if 0 < x then Real.arctan (y / x)
  else if x < 0 ∧ 0 ≤ y then Real.arctan (y / x) + Real.pi
  else if x < 0 ∧ y < 0 then Real.arctan (y / x) - Real.pi
  else if x = 0 ∧ 0 < y then Real.pi / 2
  else if x = 0 ∧ y < 0 then -(Real.pi / 2)
  else 0

/-- Helper `sphereQuadrantArea(x, y) = atan2(x*y, sqrt(x*x + y*y + 1))`: the
area of the quadrant `(-1,-1)` to `(x, y)` of a cube face projected onto the
unit sphere. -/
def sphereQuadrantArea (x y : ℝ) : ℝ :=
  atan2 (x * y) (Real.sqrt (x * x + y * y + 1))

/-- Function `CubemapUtils::solidAngle(dim, u, v)`: the difference of four
`sphereQuadrantArea` evaluations at the corners of texel `(u, v)` of a face
of dimension `dim`, with `iDim = 1/dim` and texel center `(s, t)`. -/
def solidAngle (dim u v : ℕ) : ℝ :=
  let iDim : ℝ := 1 / (dim : ℝ)
  let s : ℝ := (((u : ℝ) + 0.5) * 2 * iDim) - 1
  let t : ℝ := (((v : ℝ) + 0.5) * 2 * iDim) - 1
  let x0 := s - iDim
  let y0 := t - iDim
  let x1 := s + iDim
  let y1 := t + iDim
  sphereQuadrantArea x0 y0 - sphereQuadrantArea x0 y1 -
    sphereQuadrantArea x1 y0 + sphereQuadrantArea x1 y1

/-- Solid-angle formula as the specification words it:
`A(x0,y0) - A(x0,y1) - A(x1,y0) + A(x1,y1)` with
`A(x,y) = atan2(x*y, sqrt(x*x + y*y + 1))`, `x0 = s - 1/dim`,
`x1 = s + 1/dim`, `y0 = t - 1/dim`, `y1 = t + 1/dim`, and
`(s, t) = ((u+0.5)*2/dim - 1, (v+0.5)*2/dim - 1)` the texel center. -/
def specSolidAngle (dim u v : ℕ) : ℝ :=
  let s : ℝ := ((u : ℝ) + 0.5) * 2 / (dim : ℝ) - 1
  let t : ℝ := ((v : ℝ) + 0.5) * 2 / (dim : ℝ) - 1
  let x0 := s - 1 / (dim : ℝ)
  let x1 := s + 1 / (dim : ℝ)
  let y0 := t - 1 / (dim : ℝ)
  let y1 := t + 1 / (dim : ℝ)
  atan2 (x0 * y0) (Real.sqrt (x0 * x0 + y0 * y0 + 1)) -
    atan2 (x0 * y1) (Real.sqrt (x0 * x0 + y1 * y1 + 1)) -
    atan2 (x1 * y0) (Real.sqrt (x1 * x1 + y0 * y0 + 1)) +
    atan2 (x1 * y1) (Real.sqrt (x1 * x1 + y1 * y1 + 1))

/-- Helper for the telescoping sum: the `sphereQuadrantArea` evaluation at the
grid corner `(k, l)` of a face of dimension `dim`, in face parameter
coordinates `2*k/dim - 1`. -/
def cornerA (dim k l : ℕ) : ℝ :=
  sphereQuadrantArea (2 * (k : ℝ) / (dim : ℝ) - 1) (2 * (l : ℝ) / (dim : ℝ) - 1)

/-- Sum of `solidAngle dim u v` over all texels of one face. -/
def faceSolidAngleSum (dim : ℕ) : ℝ :=
  ∑ u ∈ Finset.range dim, ∑ v ∈ Finset.range dim, solidAngle dim u v

/-- Sum of the texel solid angles over all six faces: six times the per-face
sum, the faces being congruent. -/
def totalSolidAngle (dim : ℕ) : ℝ := 6 * faceSolidAngleSum dim

end

/-! Theorems. -/

/-- Helper: the floor of a product of two rationals that are both at least 1
is at least 1, also after conversion to `ℕ`. -/
theorem one_le_floor_mul_toNat (dx dy : ℚ) (h1 : 1 ≤ dx) (h2 : 1 ≤ dy) :
    1 ≤ (⌊dx * dy⌋).toNat := by
  have hm : (1 : ℚ) ≤ dx * dy :=
    le_trans h1 (le_mul_of_one_le_right (le_trans zero_le_one h1) h2)
  have hf : (1 : ℤ) ≤ ⌊dx * dy⌋ := by
    rw [Int.le_floor]
    exact_mod_cast hm
  exact Int.toNat_le_toNat hf

/-- Helper: the computed supersample count is always at least 1, because both
bounding-box extents are clamped to at least 1 before the truncating product. -/
theorem one_le_numSamples (pos0 pos1 pos2 pos3 : ℚ × ℚ) :
    1 ≤ numSamples pos0 pos1 pos2 pos3 :=
  one_le_floor_mul_toNat _ _ (le_max_left _ _) (le_max_left _ _)

/-- C1 (counterexample): at corner positions whose bounding box is 3/2 by 3/2,
the code computes `size_t(max(1, 3/2) * max(1, 3/2)) = floor(9/4) = 2`
samples, while the formula of the claim, `max(1, ceil(3/2) * ceil(3/2))`,
gives 4; so the sample count is not `max(1, ceil(w) * ceil(h))`. -/
theorem numSamples_ne_spec_counterexample :
    numSamples ((0 : ℚ), (0 : ℚ)) ((3/2 : ℚ), (0 : ℚ)) ((0 : ℚ), (3/2 : ℚ))
        ((3/2 : ℚ), (3/2 : ℚ)) = 2 ∧
      specNumSamples ((0 : ℚ), (0 : ℚ)) ((3/2 : ℚ), (0 : ℚ)) ((0 : ℚ), (3/2 : ℚ))
        ((3/2 : ℚ), (3/2 : ℚ)) = 4 := by
  have h1 : ⌊(9/4 : ℚ)⌋ = 2 := by
    rw [Int.floor_eq_iff]
    norm_num
  have h2 : ⌈(3/2 : ℚ)⌉ = 2 := by
    rw [Int.ceil_eq_iff]
    norm_num
  constructor
  · simp only [numSamples]
    norm_num [min_def, max_def, h1]
    decide
  · simp only [specNumSamples]
    norm_num [min_def, max_def, h2]
    decide

/-- C1 (amended): for every destination texel, the number of supersamples is
the truncation (floor) of the product of the two bounding-box extents of the
projected corner positions, each extent first clamped to at least 1; in
particular the sample count is always at least 1. -/
theorem numSamples_amended (pos0 pos1 pos2 pos3 : ℚ × ℚ) :
    numSamples pos0 pos1 pos2 pos3 =
      (⌊max 1 (max pos0.1 (max pos1.1 (max pos2.1 pos3.1)) -
          min pos0.1 (min pos1.1 (min pos2.1 pos3.1))) *
        max 1 (max pos0.2 (max pos1.2 (max pos2.2 pos3.2)) -
          min pos0.2 (min pos1.2 (min pos2.2 pos3.2)))⌋).toNat ∧
      1 ≤ numSamples pos0 pos1 pos2 pos3 :=
  ⟨rfl, one_le_numSamples pos0 pos1 pos2 pos3⟩

/-- C8: the supersample count is positive for every combination of projected
corner positions, so the reciprocal `1.0f / numSamples` is never a division
by zero and the averaging of the accumulated color is well defined. -/
theorem numSamples_pos (pos0 pos1 pos2 pos3 : ℚ × ℚ) :
    0 < numSamples pos0 pos1 pos2 pos3 ∧
      ((numSamples pos0 pos1 pos2 pos3 : ℚ)) ≠ 0 := by
  have h := one_le_numSamples pos0 pos1 pos2 pos3
  refine ⟨h, ?_⟩
  have hne : numSamples pos0 pos1 pos2 pos3 ≠ 0 := Nat.one_le_iff_ne_zero.mp h
  exact_mod_cast hne

/-- C6: after `clamp`, every channel of every in-bounds texel equals the
minimum of its previous value and 256, and channels at or below 256 are
unchanged. -/
theorem clamp_spec (width height : ℕ) (img : ℕ → ℕ → float3) (x y : ℕ)
    (hx : x < width) (hy : y < height) :
    clamp width height img x y =
        ⟨min (img x y).x 256, min (img x y).y 256, min (img x y).z 256⟩ ∧
      ((img x y).x ≤ 256 → (clamp width height img x y).x = (img x y).x) ∧
      ((img x y).y ≤ 256 → (clamp width height img x y).y = (img x y).y) ∧
      ((img x y).z ≤ 256 → (clamp width height img x y).z = (img x y).z) := by
  unfold clamp clampTexel
  rw [if_pos ⟨hx, hy⟩]
  exact ⟨rfl, fun h => min_eq_left h, fun h => min_eq_left h, fun h => min_eq_left h⟩

/-- C6 (witness): on the concrete test row with R channels 300, 1, 1000, the
three clamped texels are `(256, 2, 3)`, `(1, 2, 3)` and `(256, 2, 3)`. -/
theorem clamp_spec_witness :
    (0 < 3 ∧ 0 < 1) ∧
      clamp 3 1 clampTestImage 0 0 = ⟨256, 2, 3⟩ ∧
      clamp 3 1 clampTestImage 1 0 = ⟨1, 2, 3⟩ ∧
      clamp 3 1 clampTestImage 2 0 = ⟨256, 2, 3⟩ :=
  ⟨⟨by decide, by decide⟩,
    ((clamp_spec 3 1 clampTestImage 0 0 (by decide) (by decide)).1).trans
      (by norm_num [clampTestImage, min_def]),
    ((clamp_spec 3 1 clampTestImage 1 0 (by decide) (by decide)).1).trans
      (by norm_num [clampTestImage, min_def]),
    ((clamp_spec 3 1 clampTestImage 2 0 (by decide) (by decide)).1).trans
      (by norm_num [clampTestImage, min_def])⟩

/-- C10: `clamp` is idempotent — applying it twice gives the same texel map
as applying it once — and it never increases any channel value. -/
theorem clamp_idempotent_nonincreasing (width height : ℕ)
    (img : ℕ → ℕ → float3) (x y : ℕ) :
    clamp width height (clamp width height img) x y = clamp width height img x y ∧
      (clamp width height img x y).x ≤ (img x y).x ∧
      (clamp width height img x y).y ≤ (img x y).y ∧
      (clamp width height img x y).z ≤ (img x y).z := by
  unfold clamp clampTexel
  by_cases h : x < width ∧ y < height
  · simp [h, min_assoc, min_le_left]
  · simp [h]

/-- C7: `generateUVGrid` writes, at each texel `(x, y)` of face `f`, the face
color scaled by 5 when `(x / cellSize) XOR (y / cellSize)` is odd (with
`cellSize = dim / gridFrequency`) and black when it is even; in particular
with `gridFrequency = 4` on a dim-16 face PX, texels `(0,0)` and `(3,3)` are
black and texel `(4,0)` is white times 5. -/
theorem generateUVGrid_spec (dim gridFrequency : ℕ) (f : Face) (x y : ℕ) :
    generateUVGrid dim gridFrequency f x y =
        (if ((x / (dim / gridFrequency)) ^^^ (y / (dim / gridFrequency))) % 2 = 1
          then float3.smul 5 (uvGridColor f) else float3.zero) ∧
      generateUVGrid 16 4 Face.PX 0 0 = float3.zero ∧
      generateUVGrid 16 4 Face.PX 3 3 = float3.zero ∧
      generateUVGrid 16 4 Face.PX 4 0 = ⟨5, 5, 5⟩ :=
  ⟨rfl, rfl, rfl,
    by norm_num [generateUVGrid, uvGridColor, uvGridHDRIntensity, float3.smul]⟩

/-- C3: `setFaceFromCross` reads the face as the `dim × dim` sub-rectangle of
the cross image at the offset given by the cell table, and the cell table is:
NX at `(0,1)`, PX at `(2,1)`, NY at `(1,2)`, PY at `(1,0)`, PZ at `(1,1)`,
and NZ at `(1,3)` when the image is taller than wide, else at `(3,1)`, all
in units of `dim`. -/
theorem setFaceFromCross_offsets (dim imageWidth imageHeight : ℕ)
    (image : ℕ → ℕ → float3) :
    setFaceFromCrossOffset dim imageWidth imageHeight Face.NX = (0 * dim, 1 * dim) ∧
      setFaceFromCrossOffset dim imageWidth imageHeight Face.PX = (2 * dim, 1 * dim) ∧
      setFaceFromCrossOffset dim imageWidth imageHeight Face.NY = (1 * dim, 2 * dim) ∧
      setFaceFromCrossOffset dim imageWidth imageHeight Face.PY = (1 * dim, 0 * dim) ∧
      setFaceFromCrossOffset dim imageWidth imageHeight Face.PZ = (1 * dim, 1 * dim) ∧
      setFaceFromCrossOffset dim imageWidth imageHeight Face.NZ =
        (if imageHeight > imageWidth then (1 * dim, 3 * dim) else (3 * dim, 1 * dim)) ∧
      ∀ face i j,
        setFaceFromCross dim imageWidth imageHeight image face i j =
          image ((setFaceFromCrossOffset dim imageWidth imageHeight face).1 + i)
            ((setFaceFromCrossOffset dim imageWidth imageHeight face).2 + j) := by
  refine ⟨?_, ?_, ?_, ?_, ?_, ?_, fun face i j => rfl⟩ <;>
    simp [setFaceFromCrossOffset]

/-- C9: for a cross image exactly as tall as wide, `setAllFacesFromCross`
chooses the horizontal-cross geometry and the NZ face is taken from cell
`(3, 1)`; the vertical interpretation needs height strictly greater than
width. -/
theorem setAllFacesFromCross_square (dim w : ℕ) :
    setAllFacesFromCrossGeometry w w = Geometry.HORIZONTAL_CROSS ∧
      setFaceFromCrossOffset dim w w Face.NZ = (3 * dim, dim) := by
  constructor <;> simp [setAllFacesFromCrossGeometry, setFaceFromCrossOffset]

/-- Helper: a row index strictly below a row count keeps any in-row offset
strictly inside that many row blocks. -/
theorem rowBound (y m B j : ℕ) (hy : y < m) (hj : j < B) :
    y * B + j < m * B :=
  calc y * B + j < y * B + B := Nat.add_lt_add_left hj _
    _ = (y + 1) * B := (add_one_mul y B).symm
    _ ≤ m * B := Nat.mul_le_mul_right _ hy

/-- Helper: `getPixelRef(0, y)` is at byte offset `y` times the stride. -/
theorem Image.pixelOffset_zero (img : Image) (y : ℕ) :
    img.pixelOffset 0 y = y * img.bytesPerRow := by
  unfold Image.pixelOffset
  rw [Nat.zero_mul, Nat.add_zero]

/-- Helper: a byte inside the copied range reads from the source bytes. -/
theorem memcpyBytes_in (dst : ℕ → ℕ) (dstOff : ℕ) (src : ℕ → ℕ)
    (srcOff len k : ℕ) (h : k < len) :
    memcpyBytes dst dstOff src srcOff len (dstOff + k) = src (srcOff + k) := by
  unfold memcpyBytes
  rw [if_pos ⟨Nat.le_add_right _ _, Nat.add_lt_add_left h _⟩,
    Nat.add_sub_cancel_left]

/-- Helper: a byte before the copied range is untouched. -/
theorem memcpyBytes_before (dst : ℕ → ℕ) (dstOff : ℕ) (src : ℕ → ℕ)
    (srcOff len i : ℕ) (h : i < dstOff) :
    memcpyBytes dst dstOff src srcOff len i = dst i := by
  unfold memcpyBytes
  rw [if_neg (fun hc => Nat.lt_irrefl i (Nat.lt_of_lt_of_le h hc.1))]

/-- Helper: a byte at or past the end of the copied range is untouched. -/
theorem memcpyBytes_after (dst : ℕ → ℕ) (dstOff : ℕ) (src : ℕ → ℕ)
    (srcOff len i : ℕ) (h : dstOff + len ≤ i) :
    memcpyBytes dst dstOff src srcOff len i = dst i := by
  unfold memcpyBytes
  rw [if_neg (fun hc => Nat.lt_irrefl i (Nat.lt_of_lt_of_le hc.2 h))]

/-- Helper: a byte offset that lies in no copied row range is untouched by
the row copies. -/
theorem copyImageRows_unchanged (dst src : Image) (n i : ℕ)
    (h : ∀ y, y < n →
      ¬(y * dst.bytesPerRow ≤ i ∧ i < y * dst.bytesPerRow + src.bytesPerRow)) :
    copyImageRows dst src n i = dst.data i := by
  induction n with
  | zero => rfl
  | succ m ih =>
      rw [copyImageRows, Image.pixelOffset_zero]
      rcases Nat.lt_or_ge i (m * dst.bytesPerRow) with hlt | hge
      · rw [memcpyBytes_before _ _ _ _ _ _ hlt]
        exact ih (fun y hy => h y (Nat.lt_succ_of_lt hy))
      · have hend : m * dst.bytesPerRow + src.bytesPerRow ≤ i :=
          Nat.le_of_not_lt (fun hin => h m (Nat.lt_succ_self m) ⟨hge, hin⟩)
        rw [memcpyBytes_after _ _ _ _ _ _ hend]
        exact ih (fun y hy => h y (Nat.lt_succ_of_lt hy))

/-- Helper: a byte at position `j < src.bytesPerRow` of copied row `y` holds
the corresponding source byte, provided the source stride does not exceed the
destination stride. -/
theorem copyImageRows_copied (dst src : Image) (n y j : ℕ)
    (hy : y < n) (hj : j < src.bytesPerRow)
    (hrow : src.bytesPerRow ≤ dst.bytesPerRow) :
    copyImageRows dst src n (y * dst.bytesPerRow + j) =
      src.data (y * src.bytesPerRow + j) := by
  induction n with
  | zero => exact absurd hy (Nat.not_lt_zero y)
  | succ m ih =>
      rw [copyImageRows, Image.pixelOffset_zero]
      rcases Nat.lt_succ_iff_lt_or_eq.mp hy with hlt | heq
      · have hidx : y * dst.bytesPerRow + j < m * dst.bytesPerRow :=
          rowBound y m dst.bytesPerRow j hlt (Nat.lt_of_lt_of_le hj hrow)
        rw [memcpyBytes_before _ _ _ _ _ _ hidx]
        exact ih hlt
      · subst heq
        rw [memcpyBytes_in _ _ _ _ _ _ hj, Image.pixelOffset_zero]

/-- C2 (counterexample): with a source image of width 1 whose stride includes
one padding byte and a destination of width 2 with the same stride (so
`dst.width ≥ src.width` and `dst.height ≥ src.height` hold), `copyImage`
copies the padding byte of the source over texel `(1, 0)` of the
destination, so a texel of `dst` outside the first `src.width` texels of the
row is changed. -/
theorem copyImage_claim_counterexample :
    copySrcPadded.width ≤ copyDstPadded.width ∧
      copySrcPadded.height ≤ copyDstPadded.height ∧
      copySrcPadded.bytesPerTexel = copyDstPadded.bytesPerTexel ∧
      ¬((copyImage copyDstPadded copySrcPadded).data
          (copyDstPadded.pixelOffset 1 0) =
        copyDstPadded.data (copyDstPadded.pixelOffset 1 0)) := by
  refine ⟨by decide, by decide, by decide, ?_⟩
  decide

/-- C2 (amended): when additionally the source stride is exactly
`src.width * bytesPerTexel` (no padding) and is at most the destination
stride, `copyImage` makes each byte of the first `src.width` texels of each
of the first `src.height` rows of `dst` equal to the corresponding source
byte, and every other byte of `dst` — any byte of a row at or beyond
`src.height`, or at or beyond offset `src.bytesPerRow` within its row — is
unchanged. -/
theorem copyImage_correct (dst src : Image)
    (_hw : src.width ≤ dst.width) (_hh : src.height ≤ dst.height)
    (hts : src.bytesPerTexel = dst.bytesPerTexel)
    (hsr : src.bytesPerRow = src.width * src.bytesPerTexel)
    (hrow : src.bytesPerRow ≤ dst.bytesPerRow) :
    (∀ y, y < src.height → ∀ x, x < src.width → ∀ b, b < src.bytesPerTexel →
        (copyImage dst src).data (dst.pixelOffset x y + b) =
          src.data (src.pixelOffset x y + b)) ∧
      (∀ y j, j < dst.bytesPerRow → src.height ≤ y ∨ src.bytesPerRow ≤ j →
        (copyImage dst src).data (y * dst.bytesPerRow + j) =
          dst.data (y * dst.bytesPerRow + j)) := by
  constructor
  · intro y hy x hx b hb
    have hj : x * src.bytesPerTexel + b < src.bytesPerRow := by
      rw [hsr]
      exact rowBound x src.width src.bytesPerTexel b hx hb
    have hoff : dst.pixelOffset x y + b =
        y * dst.bytesPerRow + (x * src.bytesPerTexel + b) := by
      unfold Image.pixelOffset
      rw [Nat.add_assoc, hts]
    have hoffs : src.pixelOffset x y + b =
        y * src.bytesPerRow + (x * src.bytesPerTexel + b) :=
      Nat.add_assoc _ _ _
    rw [hoff, hoffs]
    exact copyImageRows_copied dst src src.height y
      (x * src.bytesPerTexel + b) hy hj hrow
  · intro y j hjd hout
    show copyImageRows dst src src.height _ = _
    apply copyImageRows_unchanged
    intro y2 hy2 hc
    rcases Nat.lt_trichotomy y2 y with hlt | heq | hgt
    · have h2 : y2 * dst.bytesPerRow + src.bytesPerRow ≤
          y * dst.bytesPerRow + j :=
        le_trans
          (calc y2 * dst.bytesPerRow + src.bytesPerRow
              ≤ y2 * dst.bytesPerRow + dst.bytesPerRow :=
                Nat.add_le_add_left hrow _
            _ = (y2 + 1) * dst.bytesPerRow := (add_one_mul y2 _).symm
            _ ≤ y * dst.bytesPerRow := Nat.mul_le_mul_right _ hlt)
          (Nat.le_add_right _ _)
      exact Nat.lt_irrefl _ (Nat.lt_of_lt_of_le hc.2 h2)
    · subst heq
      rcases hout with hout | hout
      · exact Nat.lt_irrefl _ (Nat.lt_of_lt_of_le hy2 hout)
      · exact Nat.lt_irrefl _
          (Nat.lt_of_lt_of_le hc.2 (Nat.add_le_add_left hout _))
    · have h3 : y * dst.bytesPerRow + j < y2 * dst.bytesPerRow :=
        rowBound y y2 dst.bytesPerRow j hgt hjd
      exact Nat.lt_irrefl _ (Nat.lt_of_le_of_lt hc.1 h3)

/-- C2 (witness): the amended copy statement instantiated on the concrete
unpadded 1 × 1 source and 2 × 2 destination. -/
theorem copyImage_correct_witness :
    (copySrcTight.width ≤ copyDstTight.width ∧
      copySrcTight.height ≤ copyDstTight.height ∧
      copySrcTight.bytesPerTexel = copyDstTight.bytesPerTexel ∧
      copySrcTight.bytesPerRow = copySrcTight.width * copySrcTight.bytesPerTexel ∧
      copySrcTight.bytesPerRow ≤ copyDstTight.bytesPerRow) ∧
    ((∀ y, y < copySrcTight.height → ∀ x, x < copySrcTight.width →
        ∀ b, b < copySrcTight.bytesPerTexel →
        (copyImage copyDstTight copySrcTight).data
            (copyDstTight.pixelOffset x y + b) =
          copySrcTight.data (copySrcTight.pixelOffset x y + b)) ∧
      (∀ y j, j < copyDstTight.bytesPerRow →
        copySrcTight.height ≤ y ∨ copySrcTight.bytesPerRow ≤ j →
        (copyImage copyDstTight copySrcTight).data
            (y * copyDstTight.bytesPerRow + j) =
          copyDstTight.data (y * copyDstTight.bytesPerRow + j))) :=
  ⟨⟨by decide, by decide, by decide, by decide, by decide⟩,
    copyImage_correct copyDstTight copySrcTight (by decide) (by decide)
      (by decide) (by decide) (by decide)⟩

/-- Helper: `atan2` for a positive second argument is the arctangent of the
quotient. -/
theorem atan2_of_pos (y x : ℝ) (hx : 0 < x) :
    atan2 y x = Real.arctan (y / x) := by
  unfold atan2
  rw [if_pos hx]

/-- Helper: the second argument of the `atan2` inside `sphereQuadrantArea` is
always positive, so the function is the arctangent of the quotient. -/
theorem sphereQuadrantArea_eq_arctan (x y : ℝ) :
    sphereQuadrantArea x y =
      Real.arctan (x * y / Real.sqrt (x * x + y * y + 1)) := by
  unfold sphereQuadrantArea
  exact atan2_of_pos _ _
    (Real.sqrt_pos.mpr (lt_of_lt_of_le zero_lt_one
      (le_add_of_nonneg_left (add_nonneg (mul_self_nonneg x) (mul_self_nonneg y)))))

/-- Helper: the arctangent of `1 / sqrt 3` is `π / 6`. -/
theorem arctan_one_div_sqrt_three :
    Real.arctan (1 / Real.sqrt 3) = Real.pi / 6 := by
  rw [← Real.tan_pi_div_six, Real.arctan_tan]
  · linarith [Real.pi_pos]
  · linarith [Real.pi_pos]

/-- Helper: value of `sphereQuadrantArea` at the corner `(1, 1)`. -/
theorem sphereQuadrantArea_one_one :
    sphereQuadrantArea 1 1 = Real.pi / 6 := by
  rw [sphereQuadrantArea_eq_arctan]
  norm_num
  rw [← one_div]
  exact arctan_one_div_sqrt_three

/-- Helper: value of `sphereQuadrantArea` at the corner `(-1, -1)`. -/
theorem sphereQuadrantArea_neg_neg :
    sphereQuadrantArea (-1) (-1) = Real.pi / 6 := by
  rw [sphereQuadrantArea_eq_arctan]
  norm_num
  rw [← one_div]
  exact arctan_one_div_sqrt_three

/-- Helper: value of `sphereQuadrantArea` at the corner `(1, -1)`. -/
theorem sphereQuadrantArea_one_neg :
    sphereQuadrantArea 1 (-1) = -(Real.pi / 6) := by
  rw [sphereQuadrantArea_eq_arctan]
  norm_num
  rw [neg_div, Real.arctan_neg, arctan_one_div_sqrt_three]

/-- Helper: value of `sphereQuadrantArea` at the corner `(-1, 1)`. -/
theorem sphereQuadrantArea_neg_one :
    sphereQuadrantArea (-1) 1 = -(Real.pi / 6) := by
  rw [sphereQuadrantArea_eq_arctan]
  norm_num
  rw [neg_div, Real.arctan_neg, arctan_one_div_sqrt_three]

/-- Helper: regrouping of a double difference. -/
theorem sub_regroup (a b c d : ℝ) : a - b - c + d = (d - b) - (c - a) := by
  ring

/-- Helper: exchange of the middle terms of a double difference. -/
theorem sub_exchange (a b c d : ℝ) : (a - b) - (c - d) = (a - c) - (b - d) := by
  ring

/-- Helper: splitting of a four-term difference. -/
theorem sub_split (a b c d : ℝ) : a - b - c + d = (a - b) - (c - d) := by
  ring

/-- Helper: simplification of `2 * d / d - 1` for nonzero `d`. -/
theorem two_mul_div_self (d : ℝ) (hd : d ≠ 0) : 2 * d / d - 1 = 1 := by
  rw [mul_div_assoc, div_self hd]
  norm_num

/-- Helper: simplification of the zero-corner coordinate. -/
theorem two_mul_zero_div (d : ℝ) : 2 * ((0 : ℕ) : ℝ) / d - 1 = -1 := by
  norm_num

/-- Helper: the texel solid angle is the double difference of the
`cornerA` grid values at the four surrounding grid corners. -/
theorem solidAngle_eq_cornerA (dim u v : ℕ) :
    solidAngle dim u v =
      cornerA dim u v - cornerA dim u (v + 1) - cornerA dim (u + 1) v +
        cornerA dim (u + 1) (v + 1) := by
  have h0 : ∀ w : ℕ,
      (((w : ℝ) + 0.5) * 2 * (1 / (dim : ℝ))) - 1 - 1 / (dim : ℝ) =
        2 * (w : ℝ) / (dim : ℝ) - 1 := by
    intro w
    ring
  have h1 : ∀ w : ℕ,
      (((w : ℝ) + 0.5) * 2 * (1 / (dim : ℝ))) - 1 + 1 / (dim : ℝ) =
        2 * ((w : ℝ) + 1) / (dim : ℝ) - 1 := by
    intro w
    ring
  simp only [solidAngle, cornerA]
  push_cast
  rw [h0 u, h0 v, h1 u, h1 v]

/-- Helper: the per-face sum of texel solid angles telescopes to the four
extreme corner values. -/
theorem faceSolidAngleSum_eq (dim : ℕ) :
    faceSolidAngleSum dim =
      cornerA dim dim dim - cornerA dim dim 0 - cornerA dim 0 dim +
        cornerA dim 0 0 := by
  unfold faceSolidAngleSum
  have hrow : ∀ u, (∑ v ∈ Finset.range dim, solidAngle dim u v) =
      (cornerA dim (u + 1) dim - cornerA dim (u + 1) 0) -
        (cornerA dim u dim - cornerA dim u 0) := by
    intro u
    have hterm : ∀ v ∈ Finset.range dim, solidAngle dim u v =
        (cornerA dim (u + 1) (v + 1) - cornerA dim u (v + 1)) -
          (cornerA dim (u + 1) v - cornerA dim u v) := by
      intro v _
      rw [solidAngle_eq_cornerA]
      exact sub_regroup _ _ _ _
    have hsum : (∑ v ∈ Finset.range dim,
          ((cornerA dim (u + 1) (v + 1) - cornerA dim u (v + 1)) -
            (cornerA dim (u + 1) v - cornerA dim u v))) =
        (cornerA dim (u + 1) dim - cornerA dim u dim) -
          (cornerA dim (u + 1) 0 - cornerA dim u 0) :=
      Finset.sum_range_sub (fun w => cornerA dim (u + 1) w - cornerA dim u w) dim
    rw [Finset.sum_congr rfl hterm, hsum]
    exact sub_exchange _ _ _ _
  have houter : ∀ u ∈ Finset.range dim,
      (∑ v ∈ Finset.range dim, solidAngle dim u v) =
        (cornerA dim (u + 1) dim - cornerA dim (u + 1) 0) -
          (cornerA dim u dim - cornerA dim u 0) :=
    fun u _ => hrow u
  have hsum2 : (∑ u ∈ Finset.range dim,
        ((cornerA dim (u + 1) dim - cornerA dim (u + 1) 0) -
          (cornerA dim u dim - cornerA dim u 0))) =
      (cornerA dim dim dim - cornerA dim dim 0) -
        (cornerA dim 0 dim - cornerA dim 0 0) :=
    Finset.sum_range_sub (fun w => cornerA dim w dim - cornerA dim w 0) dim
  rw [Finset.sum_congr rfl houter, hsum2]
  exact (sub_split _ _ _ _).symm

/-- Helper: value of `cornerA` at the grid corner `(dim, dim)`. -/
theorem cornerA_dim_dim (dim : ℕ) (hdim : (dim : ℝ) ≠ 0) :
    cornerA dim dim dim = Real.pi / 6 := by
  unfold cornerA
  rw [two_mul_div_self _ hdim]
  exact sphereQuadrantArea_one_one

/-- Helper: value of `cornerA` at the grid corner `(dim, 0)`. -/
theorem cornerA_dim_zero (dim : ℕ) (hdim : (dim : ℝ) ≠ 0) :
    cornerA dim dim 0 = -(Real.pi / 6) := by
  unfold cornerA
  rw [two_mul_zero_div, two_mul_div_self _ hdim]
  exact sphereQuadrantArea_one_neg

/-- Helper: value of `cornerA` at the grid corner `(0, dim)`. -/
theorem cornerA_zero_dim (dim : ℕ) (hdim : (dim : ℝ) ≠ 0) :
    cornerA dim 0 dim = -(Real.pi / 6) := by
  unfold cornerA
  rw [two_mul_zero_div, two_mul_div_self _ hdim]
  exact sphereQuadrantArea_neg_one

/-- Helper: value of `cornerA` at the grid corner `(0, 0)`. -/
theorem cornerA_zero_zero (dim : ℕ) :
    cornerA dim 0 0 = Real.pi / 6 := by
  unfold cornerA
  rw [two_mul_zero_div]
  exact sphereQuadrantArea_neg_neg

/-- Helper: for every positive dimension the total solid angle over the six
faces is exactly `4 π` in the real-number model. -/
theorem totalSolidAngle_eq (dim : ℕ) (hdim : 1 ≤ dim) :
    totalSolidAngle dim = 4 * Real.pi := by
  have hd : ((dim : ℕ) : ℝ) ≠ 0 :=
    Nat.cast_ne_zero.mpr (Nat.one_le_iff_ne_zero.mp hdim)
  unfold totalSolidAngle
  rw [faceSolidAngleSum_eq, cornerA_dim_dim dim hd, cornerA_dim_zero dim hd,
    cornerA_zero_dim dim hd, cornerA_zero_zero dim]
  ring

/-- C4: for every `dim ≥ 1` and `u, v` in `[0, dim)`, `solidAngle(dim, u, v)`
equals the formula of the specification: the difference
`A(x0,y0) - A(x0,y1) - A(x1,y0) + A(x1,y1)` of four spherical quadrant areas
`A(x,y) = atan2(x*y, sqrt(x*x + y*y + 1))` at the corners around the texel
center `(s, t) = ((u+0.5)*2/dim - 1, (v+0.5)*2/dim - 1)` with half-texel
offsets `1/dim`. -/
theorem solidAngle_matches_spec (dim u v : ℕ)
    (_hdim : 1 ≤ dim) (_hu : u < dim) (_hv : v < dim) :
    solidAngle dim u v = specSolidAngle dim u v := by
  simp only [solidAngle, specSolidAngle, sphereQuadrantArea, mul_one_div]

/-- C4 (witness): the specification formula instantiated at the single texel
of a one-texel face. -/
theorem solidAngle_matches_spec_witness :
    1 ≤ 1 ∧ 0 < 1 ∧ solidAngle 1 0 0 = specSolidAngle 1 0 0 :=
  ⟨le_refl 1, Nat.one_pos,
    solidAngle_matches_spec 1 0 0 (le_refl 1) Nat.one_pos Nat.one_pos⟩

/-- C5: for every `dim ≥ 8`, the sum of `solidAngle dim u v` over all six
faces and all texels — six times the one-face sum — equals `4 π` steradians
within a relative tolerance of `1/1000` (in the real-number model the sum is
exactly `4 π`, so the deviation is zero). -/
theorem totalSolidAngle_near_four_pi (dim : ℕ) (hdim : 8 ≤ dim) :
    |totalSolidAngle dim - 4 * Real.pi| ≤ (1 / 1000) * (4 * Real.pi) := by
  rw [totalSolidAngle_eq dim (le_trans (by norm_num) hdim), sub_self, abs_zero]
  exact mul_nonneg (by norm_num)
    (mul_nonneg (by norm_num) Real.pi_pos.le)

/-- C5 (witness): the bound instantiated at the smallest dimension the claim
covers, `dim = 8`. -/
theorem totalSolidAngle_near_four_pi_witness :
    8 ≤ 8 ∧ |totalSolidAngle 8 - 4 * Real.pi| ≤ (1 / 1000) * (4 * Real.pi) :=
  ⟨le_refl 8, totalSolidAngle_near_four_pi 8 (le_refl 8)⟩

end CubemapUtils
